import Mathlib

/-!
Shallow embedding of the core helper logic of the `gh-claude-tools` CLI
(`src/lib/helpers.ts`, `src/bin/ghp.ts`) and proofs about the diff-truncation
policies, the authentication resolution chain, the AI-client failure
classification, and the push-and-PR orchestrator's PR-update step.

JavaScript strings are modelled as lists of characters; `split`, `join`,
`startsWith`, `substring`, `trim` and string concatenation are translated
directly.
-/

set_option maxRecDepth 8000

namespace Ghct

/-- Characters of a JavaScript string, modelled as a list of characters. -/
abbrev Str : Type := List Char

/-- JavaScript `s.split('\n')`: always yields at least one (possibly empty) line. -/
def splitLines : Str → List Str
  | [] => [[]]
  | c :: rest =>
    if c = '\n' then [] :: splitLines rest
    else
      match splitLines rest with
      | [] => [[c]]
      | l :: ls => (c :: l) :: ls

/-- JavaScript `lines.join('\n')`. -/
def joinLines : List Str → Str
  | [] => []
  | [l] => l
  | l :: l' :: ls => l ++ '\n' :: joinLines (l' :: ls)

/-- JavaScript `s.startsWith(p)`. -/
def jsStartsWith : Str → Str → Bool
  | _, [] => true
  | [], _ :: _ => false
  | c :: s, q :: p => c == q && jsStartsWith s p

/-- The marker appended by `limitDiffForCommit`'s hard character-count fallback:
`'\n\n[diff truncated due to size]'`. -/
def commitTruncNote : Str := "\n\n[diff truncated due to size]".data

/-- Header-line test of `limitDiffForCommit`:
`line.startsWith('diff --git') || line.startsWith('+++') || line.startsWith('---')`. -/
def isCommitHeaderLine (l : Str) : Bool :=
  jsStartsWith l "diff --git".data || jsStartsWith l "+++".data || jsStartsWith l "---".data

/-- Change-line test: `line.startsWith('+') || line.startsWith('-')`. -/
def isChangeLine (l : Str) : Bool :=
  jsStartsWith l "+".data || jsStartsWith l "-".data

/-- `limitDiffForCommit` from `src/lib/helpers.ts`: pass small diffs through,
otherwise keep all header lines plus the first 200 change lines, and if that
is still over the 15,000-character ceiling hard-truncate with a marker. -/
def limitDiffForCommit (diff : Str) : Str :=
  let maxChars := 15000
  if diff.length ≤ maxChars then diff
  else
    let lines := splitLines diff
    let fileHeaders := lines.filter isCommitHeaderLine
    let changeLines := lines.filter isChangeLine
    let limitedLines := fileHeaders ++ changeLines.take 200
    let limitedDiff := joinLines limitedLines
    if limitedDiff.length ≤ maxChars then limitedDiff
    else diff.take maxChars ++ commitTruncNote

/-- The marker appended by `limitDiffForPR`:
`'\n\n[Diff truncated - PR contains additional changes]'`. -/
def prTruncNote : Str := "\n\n[Diff truncated - PR contains additional changes]".data

/-- Header-line test of `limitDiffForPR`: the commit-policy markers plus `'index '`. -/
def isPRHeaderLine (l : Str) : Bool :=
  jsStartsWith l "diff --git".data || jsStartsWith l "+++".data ||
    jsStartsWith l "---".data || jsStartsWith l "index ".data

/-- JavaScript object assignment `m[k] = v` for an insertion-ordered string-keyed
object: updates in place if the key exists, otherwise appends the new key. -/
def setEntry : List (Str × List Str) → Str → List Str → List (Str × List Str)
  | [], k, v => [(k, v)]
  | (k', v') :: rest, k, v =>
    if k' = k then (k', v) :: rest else (k', v') :: setEntry rest k v

/-- JavaScript object lookup `m[k]`. -/
def getEntry : List (Str × List Str) → Str → Option (List Str)
  | [], _ => none
  | (k', v') :: rest, k => if k' = k then some v' else getEntry rest k

/-- The `changesByFile` loop of `limitDiffForPR`: group change lines under the most
recent `'diff --git'` line seen, at most 20 lines per file. -/
def collectChanges : List Str → Str → List (Str × List Str) → List (Str × List Str)
  | [], _, m => m
  | l :: rest, cur, m =>
    if jsStartsWith l "diff --git".data then
      collectChanges rest l (setEntry m l [])
    else if !cur.isEmpty && (jsStartsWith l "+".data || jsStartsWith l "-".data) then
      let v := (getEntry m cur).getD []
      if v.length < 20 then collectChanges rest cur (setEntry m cur (v ++ [l]))
      else collectChanges rest cur m
    else collectChanges rest cur m

/-- The accumulation loop of `limitDiffForPR`: append per-file sections in encounter
order, stopping before the accumulated length would exceed `maxChars`. -/
def addFileSections (maxChars : Nat) : List (Str × List Str) → Str → Str
  | [], acc => acc
  | (file, changes) :: rest, acc =>
    let sect : Str := '\n' :: (file ++ '\n' :: (joinLines changes ++ ['\n']))
    if maxChars < acc.length + sect.length then acc
    else addFileSections maxChars rest (acc ++ sect)

/-- `limitDiffForPR` from `src/lib/helpers.ts`: pass diffs within the 30,000-character
ceiling through; hard-truncate diffs over 100,000 characters; otherwise emit all
header lines then per-file samples capped at 20 lines each, stopping at the ceiling,
and append the truncation marker. -/
def limitDiffForPR (diff : Str) : Str :=
  let maxChars := 30000
  if diff.length ≤ maxChars then diff
  else if 100000 < diff.length then diff.take maxChars ++ prTruncNote
  else
    let lines := splitLines diff
    let fileHeaders := lines.filter isPRHeaderLine
    let changesByFile := collectChanges lines [] []
    let headerPart := joinLines fileHeaders ++ ['\n', '\n']
    addFileSections maxChars changesByFile headerPart ++ prTruncNote

/-- The four authentication methods of `AuthResult.method` in `src/lib/types.ts`. -/
inductive AuthMethod : Type
  | env
  | claudeCli
  | config
  | prompt
deriving DecidableEq, Repr

/-- `AuthResult` from `src/lib/types.ts`: a method tag and an optional key. -/
structure AuthResult : Type where
  method : AuthMethod
  key : Option Str
deriving DecidableEq, Repr

/-- Observable side effects of `getAnthropicApiKey`, in order of occurrence:
probing the AI CLI, reading the config file, prompting the user, and the
attempt to persist the key (which may succeed or fail). -/
inductive AuthEvent : Type
  | probeCli
  | readConfig
  | promptUser
  | saveConfigOk
  | saveConfigFail
deriving DecidableEq, Repr

/-- The ambient state `getAnthropicApiKey` consults: the `ANTHROPIC_API_KEY`
environment variable (`none` when unset), whether `claude --version` succeeds,
the parsed `anthropicApiKey` field of the config file (`none` when the read or
parse throws, `some none` when the field is absent), the raw line the user
types at the prompt, and whether persisting the key succeeds. -/
structure AuthWorld : Type where
  envKey : Option Str
  claudeCliOk : Bool
  configKey : Option (Option Str)
  promptAnswer : Str
  saveOk : Bool

/-- JavaScript truthiness of a possibly-undefined string: `undefined` and `''`
are falsy. -/
def jsTruthy : Option Str → Bool
  | none => false
  | some s => !s.isEmpty

/-- JavaScript `s.trim()`: strip whitespace from both ends. -/
def isJsSpace (c : Char) : Bool :=
  c = ' ' || c = '\t' || c = '\n' || c = '\r' || c = '\x0b' || c = '\x0c'

/-- JavaScript `s.trim()` on a character list. -/
def jsTrim (s : Str) : Str :=
  ((s.dropWhile isJsSpace).reverse.dropWhile isJsSpace).reverse

/-- The error thrown when the prompted key is empty. -/
def keyRequiredMessage : Str := "API key is required for AI features".data

/-- Steps 4 of `getAnthropicApiKey` (interactive prompt): trim the typed line,
fail if it is empty, otherwise attempt to persist it (failure only warns) and
return the prompt method with the key. Reached only after the probe and the
config read, hence those events head the trace. -/
def promptPath (w : AuthWorld) : Except Str AuthResult × List AuthEvent :=
  let evs := [AuthEvent.probeCli, AuthEvent.readConfig, AuthEvent.promptUser]
  let apiKey := jsTrim w.promptAnswer
  if apiKey.isEmpty then
    (Except.error keyRequiredMessage, evs)
  else
    (Except.ok ⟨AuthMethod.prompt, some apiKey⟩,
      evs ++ [if w.saveOk then AuthEvent.saveConfigOk else AuthEvent.saveConfigFail])

/-- `getAnthropicApiKey` from `src/lib/helpers.ts`: environment variable, then
AI-CLI session probe, then saved config, then interactive prompt. The second
component records which sources were consulted. -/
def getAnthropicApiKey (w : AuthWorld) : Except Str AuthResult × List AuthEvent :=
  if jsTruthy w.envKey then
    (Except.ok ⟨AuthMethod.env, w.envKey⟩, [])
  else if w.claudeCliOk then
    (Except.ok ⟨AuthMethod.claudeCli, none⟩, [AuthEvent.probeCli])
  else
    match w.configKey with
    | some (some k) =>
      if !k.isEmpty then
        (Except.ok ⟨AuthMethod.config, some k⟩, [AuthEvent.probeCli, AuthEvent.readConfig])
      else promptPath w
    | _ => promptPath w

/-- JavaScript truthiness of the `exitCode` field of an execa error
(`undefined` and `0` are falsy). -/
def exitTruthy : Option Nat → Bool
  | none => false
  | some n => n != 0

/-- The distinguishing fields of an execa invocation error. -/
structure ExecaError : Type where
  timedOut : Bool
  exitCode : Option Nat
  message : Str

/-- Result of spawning `claude --print "..."`: captured stdout, or an error. -/
inductive InvokeOutcome : Type
  | success (stdout : Str)
  | failure (e : ExecaError)

/-- The timeout configured for the AI-client invocation, in milliseconds. -/
def claudeCliTimeoutMs : Nat := 90000

/-- The message surfaced when the AI-client invocation times out. -/
def timeoutMessage : Str :=
  "Claude CLI timed out after 90 seconds. The diff may be too large or Claude API is slow.".data

/-- The message surfaced when the AI client reports a nonzero exit on the
API-key path. -/
def cliNotFoundMessage : Str := "Claude CLI not found".data

/-- `executeClaudeCommand` from `src/lib/helpers.ts`, given the resolved
authentication and the outcome of the child process: success returns trimmed
stdout; on failure the `claude-cli` branch reclassifies only timeouts, while
the other branch reclassifies timeouts and then nonzero exits. -/
def executeClaudeCommand (auth : AuthResult) (outcome : InvokeOutcome) : Except Str Str :=
  match outcome with
  | InvokeOutcome.success out => Except.ok (jsTrim out)
  | InvokeOutcome.failure e =>
    match auth.method with
    | AuthMethod.claudeCli =>
      if e.timedOut then Except.error timeoutMessage
      else Except.error e.message
    | _ =>
      if e.timedOut then Except.error timeoutMessage
      else if exitTruthy e.exitCode then Except.error cliNotFoundMessage
      else Except.error e.message

/-- Side effects of the existing-PR branch of `ghp.ts`'s `main`. -/
inductive FsEffect : Type
  | writeFile (path : Str) (content : Str)
  | runCmd (cmd : Str)
  | deleteFile (path : Str)
deriving DecidableEq, Repr

/-- The temporary file name `path.join(os.tmpdir(), 'pr-edit-' + Date.now() + '.md')`,
with the timestamp already rendered as decimal digits `ds`. -/
def tmpEditFile (tmpdir ds : Str) : Str :=
  tmpdir ++ "/pr-edit-".data ++ ds ++ ".md".data

/-- The hosting-CLI command `gh pr edit --body-file "<tmpFile>"`. -/
def prEditCmd (tmpFile : Str) : Str :=
  "gh pr edit --body-file \"".data ++ tmpFile ++ "\"".data

/-- Title/description split used by `ghp.ts`: the title is `lines[0]` and the
body is `lines.slice(2).join('\n')`. -/
def splitPRContent (prContent : Str) : Str × Str :=
  let lines := splitLines prContent
  (lines.headD [], joinLines (lines.drop 2))

/-- The existing-PR branch of `ghp.ts`'s `main`: write the regenerated
description to a temporary file, run `gh pr edit --body-file`, delete the file. -/
def updateExistingPRSteps (prContent : Str) (tmpFile : Str) : List FsEffect :=
  let description := (splitPRContent prContent).2
  [FsEffect.writeFile tmpFile description,
    FsEffect.runCmd (prEditCmd tmpFile),
    FsEffect.deleteFile tmpFile]

theorem splitLines_ne_nil (s : Str) : splitLines s ≠ [] := by
  induction s with
  | nil => simp [splitLines]
  | cons c rest ih =>
    simp only [splitLines]
    split
    · simp
    · cases h : splitLines rest with
      | nil => simp
      | cons l ls => simp

theorem splitLines_eq_single {l : Str} (h : '\n' ∉ l) : splitLines l = [l] := by
  induction l with
  | nil => rfl
  | cons c rest ih =>
    have hc : ¬ c = '\n' := by
      intro hc; exact h (hc ▸ List.mem_cons_self c rest)
    have hr : '\n' ∉ rest := fun hm => h (List.mem_cons_of_mem _ hm)
    simp only [splitLines, if_neg hc, ih hr]

theorem splitLines_append_newline {l : Str} (s : Str) (h : '\n' ∉ l) :
    splitLines (l ++ '\n' :: s) = l :: splitLines s := by
  induction l with
  | nil => simp [splitLines]
  | cons c rest ih =>
    have hc : ¬ c = '\n' := by
      intro hc; exact h (hc ▸ List.mem_cons_self c rest)
    have hr : '\n' ∉ rest := fun hm => h (List.mem_cons_of_mem _ hm)
    simp only [List.cons_append, splitLines, if_neg hc, List.append_eq]
    rw [ih hr]

theorem splitLines_joinLines (ls : List Str) (hne : ls ≠ [])
    (h : ∀ l ∈ ls, '\n' ∉ l) : splitLines (joinLines ls) = ls := by
  induction ls with
  | nil => exact absurd rfl hne
  | cons l rest ih =>
    cases rest with
    | nil => exact splitLines_eq_single (h l (List.mem_cons_self l []))
    | cons l' rest' =>
      have h1 : '\n' ∉ l := h l (List.mem_cons_self _ _)
      have h2 : ∀ x ∈ l' :: rest', '\n' ∉ x := fun x hx => h x (List.mem_cons_of_mem _ hx)
      simp only [joinLines, splitLines_append_newline _ h1,
        ih (by simp) h2]

theorem joinLines_splitLines (s : Str) : joinLines (splitLines s) = s := by
  induction s with
  | nil => rfl
  | cons c rest ih =>
    by_cases hc : c = '\n'
    · subst hc
      obtain ⟨x, xs, hx⟩ := List.exists_cons_of_ne_nil (splitLines_ne_nil rest)
      simp only [splitLines, if_pos rfl, hx, joinLines, List.nil_append]
      rw [← hx, ih]
    · obtain ⟨x, xs, hx⟩ := List.exists_cons_of_ne_nil (splitLines_ne_nil rest)
      simp only [splitLines, if_neg hc, hx]
      cases xs with
      | nil =>
        simp only [joinLines]
        have : joinLines (splitLines rest) = rest := ih
        rw [hx] at this
        simp only [joinLines] at this
        rw [this]
      | cons y ys =>
        simp only [joinLines, List.cons_append]
        have : joinLines (splitLines rest) = rest := ih
        rw [hx] at this
        simp only [joinLines] at this
        rw [this]

theorem joinLines_length_cons_le (a : Str) (ls : List Str) :
    (joinLines ls).length ≤ (joinLines (a :: ls)).length := by
  cases ls with
  | nil => simp [joinLines]
  | cons x xs =>
    simp only [joinLines, List.length_append, List.length_cons]
    omega

theorem joinLines_length_sublist {l₁ l₂ : List Str} (h : List.Sublist l₁ l₂) :
    (joinLines l₁).length ≤ (joinLines l₂).length := by
  induction h with
  | slnil => exact Nat.le_refl _
  | cons a h ih => exact Nat.le_trans ih (joinLines_length_cons_le a _)
  | cons₂ a h ih =>
    rename_i m₁ m₂
    cases m₁ with
    | nil =>
      cases m₂ with
      | nil => exact Nat.le_refl _
      | cons y ys =>
        simp only [joinLines, List.length_append, List.length_cons]
        omega
    | cons x xs =>
      cases m₂ with
      | nil => exact absurd h (by simp)
      | cons y ys =>
        simp only [joinLines, List.length_append, List.length_cons]
        omega

theorem addFileSections_length_le (maxChars : Nat) (entries : List (Str × List Str))
    (acc : Str) :
    (addFileSections maxChars entries acc).length ≤ max acc.length maxChars := by
  induction entries generalizing acc with
  | nil => exact Nat.le_max_left _ _
  | cons e rest ih =>
    obtain ⟨file, changes⟩ := e
    simp only [addFileSections]
    split
    · exact Nat.le_max_left _ _
    · rename_i hle
      refine Nat.le_trans (ih _) ?_
      have hacc : (acc ++ ('\n' :: (file ++ '\n' :: (joinLines changes ++ ['\n'])))).length
          ≤ maxChars := by
        simp only [List.length_append, List.length_cons] at hle ⊢
        omega
      calc max (acc ++ '\n' :: (file ++ '\n' :: (joinLines changes ++ ['\n']))).length maxChars
          = maxChars := Nat.max_eq_right hacc
        _ ≤ max acc.length maxChars := Nat.le_max_right _ _

/-- The local `limitedDiff` of `limitDiffForCommit`: all header lines followed by
the first 200 change lines, joined with newlines. -/
def commitLimitedDiff (d : Str) : Str :=
  joinLines ((splitLines d).filter isCommitHeaderLine ++
    ((splitLines d).filter isChangeLine).take 200)

theorem limitDiffForCommit_of_le (d : Str) (h : d.length ≤ 15000) :
    limitDiffForCommit d = d := by
  simp [limitDiffForCommit, h]

theorem limitDiffForCommit_structured (d : Str) (h1 : 15000 < d.length)
    (h2 : (commitLimitedDiff d).length ≤ 15000) :
    limitDiffForCommit d = commitLimitedDiff d := by
  simp only [commitLimitedDiff] at h2 ⊢
  simp only [limitDiffForCommit]
  rw [if_neg (by omega), if_pos h2]

theorem limitDiffForCommit_fallback (d : Str) (h1 : 15000 < d.length)
    (h2 : 15000 < (commitLimitedDiff d).length) :
    limitDiffForCommit d = d.take 15000 ++ commitTruncNote := by
  simp only [commitLimitedDiff] at h2
  simp only [limitDiffForCommit]
  rw [if_neg (by omega), if_neg (by omega)]

/-- The initial `limitedDiff` of `limitDiffForPR` before the accumulation loop:
all header lines joined with newlines, followed by a blank line. -/
def prLimitedBase (d : Str) : Str :=
  joinLines ((splitLines d).filter isPRHeaderLine) ++ ['\n', '\n']

theorem limitDiffForPR_of_le (d : Str) (h : d.length ≤ 30000) :
    limitDiffForPR d = d := by
  simp [limitDiffForPR, h]

theorem limitDiffForPR_hard (d : Str) (h : 100000 < d.length) :
    limitDiffForPR d = d.take 30000 ++ prTruncNote := by
  simp only [limitDiffForPR]
  rw [if_neg (by omega), if_pos h]

theorem limitDiffForPR_structured (d : Str) (h1 : 30000 < d.length)
    (h2 : d.length ≤ 100000) :
    limitDiffForPR d =
      addFileSections 30000 (collectChanges (splitLines d) [] []) (prLimitedBase d)
        ++ prTruncNote := by
  simp only [limitDiffForPR, prLimitedBase]
  rw [if_neg (by omega), if_neg (by omega)]

theorem prLimitedBase_length_le (d : Str) : (prLimitedBase d).length ≤ d.length + 2 := by
  have hsub : List.Sublist ((splitLines d).filter isPRHeaderLine) (splitLines d) :=
    List.filter_sublist _
  have h1 : (joinLines ((splitLines d).filter isPRHeaderLine)).length
      ≤ (joinLines (splitLines d)).length := joinLines_length_sublist hsub
  rw [joinLines_splitLines] at h1
  simp only [prLimitedBase, List.length_append, List.length_cons, List.length_nil]
  omega

/-- A 15,001-character diff consisting of one long change line: it defeats the
structured pass of `limitDiffForCommit` and forces the hard fallback. -/
def commitCex : Str := '+' :: List.replicate 15000 'a'

/-- Claim C1, counterexample: the commit policy's hard fallback appends the
30-character truncation note after taking 15,000 characters, so on this
15,001-character input the output has 15,030 characters, exceeding the
claimed 15,000-character ceiling. -/
theorem commit_ceiling_exceeded_cex :
    commitCex.length = 15001 ∧ (limitDiffForCommit commitCex).length = 15030 := by
  have hlen : commitCex.length = 15001 := by
    show ('+' :: List.replicate 15000 'a' : Str).length = 15001
    rw [List.length_cons, List.length_replicate]
  refine ⟨hlen, ?_⟩
  have hne : ('\n') ∉ commitCex := by
    show ('\n') ∉ ('+' :: List.replicate 15000 'a' : Str)
    intro hm
    rcases List.mem_cons.mp hm with hm | hm
    · exact absurd hm (by decide)
    · exact absurd (List.eq_of_mem_replicate hm) (by decide)
  have hsplit : splitLines commitCex = [commitCex] := splitLines_eq_single hne
  have hhdr : isCommitHeaderLine commitCex = false := rfl
  have hchg : isChangeLine commitCex = true := rfl
  have hf1 : (splitLines commitCex).filter isCommitHeaderLine = [] := by
    rw [hsplit]; simp only [List.filter, hhdr]
  have hf2 : (splitLines commitCex).filter isChangeLine = [commitCex] := by
    rw [hsplit]; simp only [List.filter, hchg]
  have hlim : commitLimitedDiff commitCex = commitCex := by
    unfold commitLimitedDiff
    rw [hf1, hf2]
    rfl
  have hnote : commitTruncNote.length = 30 := by decide
  rw [limitDiffForCommit_fallback commitCex (by omega) (by rw [hlim, hlen]; omega)]
  simp only [List.length_append, List.length_take, hlen, hnote]
  omega

/-- Claim C1 (amended): the commit policy's output never exceeds 15,000
characters plus the length of its 30-character truncation note (15,030 total),
and the PR policy's output never exceeds
`max 30000 (input length + 2)` plus its 51-character truncation note — the
configured ceilings are exceeded by exactly the appended marker on the hard
paths, and on the structured PR path the unconditionally kept header lines are
bounded only by the input itself. -/
theorem limit_length_bounds (d : Str) :
    (limitDiffForCommit d).length ≤ 15000 + commitTruncNote.length
    ∧ (limitDiffForPR d).length ≤ max 30000 (d.length + 2) + prTruncNote.length := by
  constructor
  · by_cases h1 : d.length ≤ 15000
    · rw [limitDiffForCommit_of_le d h1]; omega
    · by_cases h2 : (commitLimitedDiff d).length ≤ 15000
      · rw [limitDiffForCommit_structured d (by omega) h2]; omega
      · rw [limitDiffForCommit_fallback d (by omega) (by omega)]
        simp only [List.length_append, List.length_take]
        omega
  · by_cases h1 : d.length ≤ 30000
    · rw [limitDiffForPR_of_le d h1]
      have := Nat.le_max_left 30000 (d.length + 2)
      omega
    · by_cases h2 : 100000 < d.length
      · rw [limitDiffForPR_hard d h2]
        simp only [List.length_append, List.length_take]
        have := Nat.le_max_left 30000 (d.length + 2)
        omega
      · rw [limitDiffForPR_structured d (by omega) (by omega)]
        have hA := addFileSections_length_le 30000
          (collectChanges (splitLines d) [] []) (prLimitedBase d)
        have hB := prLimitedBase_length_le d
        simp only [List.length_append]
        omega

/-- Claim C3: for any diff over the 15,000-character ceiling the commit policy's
structured output keeps the header lines as an order-preserving sublist that
contains every header line of the input, plus at most 200 change lines, and the
hard fallback with the truncation note fires exactly when that structured
output still exceeds the ceiling. -/
theorem commit_truncation_structured_policy (d : Str) (h : 15000 < d.length) :
    List.Sublist ((splitLines d).filter isCommitHeaderLine) (splitLines d)
    ∧ (∀ l ∈ splitLines d, isCommitHeaderLine l = true →
        l ∈ (splitLines d).filter isCommitHeaderLine)
    ∧ (((splitLines d).filter isChangeLine).take 200).length ≤ 200
    ∧ ((commitLimitedDiff d).length ≤ 15000 →
        limitDiffForCommit d = commitLimitedDiff d)
    ∧ (15000 < (commitLimitedDiff d).length →
        limitDiffForCommit d = d.take 15000 ++ commitTruncNote) := by
  refine ⟨List.filter_sublist _, ?_, ?_, ?_, ?_⟩
  · intro l hl hh; exact List.mem_filter.mpr ⟨hl, hh⟩
  · rw [List.length_take]; exact Nat.min_le_left _ _
  · exact fun h2 => limitDiffForCommit_structured d h h2
  · exact fun h2 => limitDiffForCommit_fallback d h h2

/-- Claim C3, witness: the theorem applied to a concrete 15,001-character diff. -/
theorem commit_truncation_structured_policy_witness :
    15000 < (List.replicate 15001 'x' : Str).length
    ∧ (List.Sublist ((splitLines (List.replicate 15001 'x')).filter isCommitHeaderLine)
          (splitLines (List.replicate 15001 'x'))
      ∧ (∀ l ∈ splitLines (List.replicate 15001 'x'), isCommitHeaderLine l = true →
          l ∈ (splitLines (List.replicate 15001 'x')).filter isCommitHeaderLine)
      ∧ (((splitLines (List.replicate 15001 'x')).filter isChangeLine).take 200).length ≤ 200
      ∧ ((commitLimitedDiff (List.replicate 15001 'x')).length ≤ 15000 →
          limitDiffForCommit (List.replicate 15001 'x')
            = commitLimitedDiff (List.replicate 15001 'x'))
      ∧ (15000 < (commitLimitedDiff (List.replicate 15001 'x')).length →
          limitDiffForCommit (List.replicate 15001 'x')
            = (List.replicate 15001 'x').take 15000 ++ commitTruncNote)) :=
  ⟨by rw [List.length_replicate]; omega,
    commit_truncation_structured_policy _ (by rw [List.length_replicate]; omega)⟩

/-- Claim C6: both truncation policies return any input within their configured
ceiling (15,000 characters for commits, 30,000 for PRs) unchanged. -/
theorem limit_identity_on_small (d : Str) :
    (d.length ≤ 15000 → limitDiffForCommit d = d)
    ∧ (d.length ≤ 30000 → limitDiffForPR d = d) :=
  ⟨limitDiffForCommit_of_le d, limitDiffForPR_of_le d⟩

/-- Claim C6, witness: a concrete small diff passes through both policies
unchanged. -/
theorem limit_identity_on_small_witness :
    ("diff --git a/f b/f".data.length ≤ 15000
      ∧ limitDiffForCommit "diff --git a/f b/f".data = "diff --git a/f b/f".data)
    ∧ ("diff --git a/f b/f".data.length ≤ 30000
      ∧ limitDiffForPR "diff --git a/f b/f".data = "diff --git a/f b/f".data) :=
  ⟨⟨by decide, (limit_identity_on_small _).1 (by decide)⟩,
    ⟨by decide, (limit_identity_on_small _).2 (by decide)⟩⟩

/-- Claim C7: for any diff over 100,000 characters the PR policy skips the
structured per-file handling, hard-truncates to the 30,000-character ceiling,
and the output ends with the truncation marker. -/
theorem pr_hard_truncation_over_100k (d : Str) (h : 100000 < d.length) :
    limitDiffForPR d = d.take 30000 ++ prTruncNote
    ∧ ∃ pre, limitDiffForPR d = pre ++ prTruncNote :=
  ⟨limitDiffForPR_hard d h, ⟨d.take 30000, limitDiffForPR_hard d h⟩⟩

/-- Claim C7, witness: the theorem applied to a concrete 100,001-character diff. -/
theorem pr_hard_truncation_over_100k_witness :
    100000 < (List.replicate 100001 'b' : Str).length
    ∧ (limitDiffForPR (List.replicate 100001 'b')
        = (List.replicate 100001 'b').take 30000 ++ prTruncNote
      ∧ ∃ pre, limitDiffForPR (List.replicate 100001 'b') = pre ++ prTruncNote) :=
  ⟨by rw [List.length_replicate]; omega,
    pr_hard_truncation_over_100k _ (by rw [List.length_replicate]; omega)⟩

/-- The truthy key field of the parsed config, as tested by
`if (config.anthropicApiKey)`. -/
def configKeyTruthy : Option (Option Str) → Bool
  | some (some k) => !k.isEmpty
  | _ => false

theorem getKey_env (w : AuthWorld) (h : jsTruthy w.envKey = true) :
    getAnthropicApiKey w = (Except.ok ⟨AuthMethod.env, w.envKey⟩, []) := by
  simp [getAnthropicApiKey, h]

theorem getKey_cli (w : AuthWorld) (h1 : jsTruthy w.envKey = false)
    (h2 : w.claudeCliOk = true) :
    getAnthropicApiKey w
      = (Except.ok ⟨AuthMethod.claudeCli, none⟩, [AuthEvent.probeCli]) := by
  simp [getAnthropicApiKey, h1, h2]

theorem getKey_config (w : AuthWorld) (h1 : jsTruthy w.envKey = false)
    (h2 : w.claudeCliOk = false) (k : Str) (hc : w.configKey = some (some k))
    (hk : k.isEmpty = false) :
    getAnthropicApiKey w
      = (Except.ok ⟨AuthMethod.config, some k⟩,
          [AuthEvent.probeCli, AuthEvent.readConfig]) := by
  simp [getAnthropicApiKey, h1, h2, hc, hk]

theorem getKey_prompt_reached (w : AuthWorld) (h1 : jsTruthy w.envKey = false)
    (h2 : w.claudeCliOk = false) (hcfg : configKeyTruthy w.configKey = false) :
    getAnthropicApiKey w = promptPath w := by
  rcases hc : w.configKey with _ | ck
  · simp [getAnthropicApiKey, h1, h2, hc]
  · rcases ck with _ | ck'
    · simp [getAnthropicApiKey, h1, h2, hc]
    · have hk' : ck'.isEmpty = true := by
        rw [hc] at hcfg
        simpa [configKeyTruthy] using hcfg
      simp [getAnthropicApiKey, h1, h2, hc, hk']

theorem promptPath_empty (w : AuthWorld) (h : (jsTrim w.promptAnswer).isEmpty = true) :
    promptPath w = (Except.error keyRequiredMessage,
      [AuthEvent.probeCli, AuthEvent.readConfig, AuthEvent.promptUser]) := by
  simp [promptPath, h]

theorem promptPath_nonempty (w : AuthWorld)
    (h : (jsTrim w.promptAnswer).isEmpty = false) :
    promptPath w = (Except.ok ⟨AuthMethod.prompt, some (jsTrim w.promptAnswer)⟩,
      [AuthEvent.probeCli, AuthEvent.readConfig, AuthEvent.promptUser,
        if w.saveOk then AuthEvent.saveConfigOk else AuthEvent.saveConfigFail]) := by
  simp [promptPath, h]

/-- A world where the environment variable is set to the empty string and the
AI-CLI session probe succeeds. -/
def envEmptyWorld : AuthWorld :=
  ⟨some [], true, none, [], true⟩

/-- Claim C2, counterexample: with the API-key variable set (to the empty
string, which JavaScript treats as falsy) resolution does not return method
`env`: it consults the next source and returns the AI-CLI session method, with
the probe recorded in the trace. -/
theorem auth_env_set_but_empty_cex :
    envEmptyWorld.envKey.isSome = true
    ∧ getAnthropicApiKey envEmptyWorld
        = (Except.ok ⟨AuthMethod.claudeCli, none⟩, [AuthEvent.probeCli]) :=
  ⟨rfl, rfl⟩

/-- Claim C2 (amended): if the API-key environment variable is set to a
non-empty string, resolution returns method `env` with that key and consults
no other source (empty trace); and in every world the consulted sources form a
prefix of the fixed order probe, config read, prompt, save. -/
theorem auth_env_priority (w : AuthWorld) (k : Str) (hk : w.envKey = some k)
    (hne : k ≠ []) :
    getAnthropicApiKey w = (Except.ok ⟨AuthMethod.env, some k⟩, [])
    ∧ ∀ w' : AuthWorld, ∃ rest,
        (getAnthropicApiKey w').2 ++ rest =
          [AuthEvent.probeCli, AuthEvent.readConfig, AuthEvent.promptUser,
            if w'.saveOk then AuthEvent.saveConfigOk else AuthEvent.saveConfigFail] := by
  constructor
  · have ht : jsTruthy w.envKey = true := by
      rw [hk]
      simp [jsTruthy, List.isEmpty_eq_true, hne]
    rw [getKey_env w ht, hk]
  · intro w'
    by_cases h1 : jsTruthy w'.envKey
    · refine ⟨[AuthEvent.probeCli, AuthEvent.readConfig, AuthEvent.promptUser,
        if w'.saveOk then AuthEvent.saveConfigOk else AuthEvent.saveConfigFail], ?_⟩
      rw [getKey_env w' h1]
      rfl
    · by_cases h2 : w'.claudeCliOk
      · refine ⟨[AuthEvent.readConfig, AuthEvent.promptUser,
          if w'.saveOk then AuthEvent.saveConfigOk else AuthEvent.saveConfigFail], ?_⟩
        rw [getKey_cli w' (by simpa using h1) h2]
        rfl
      · by_cases h3 : configKeyTruthy w'.configKey
        · rcases hc : w'.configKey with _ | ck
          · rw [hc] at h3; simp [configKeyTruthy] at h3
          · rcases ck with _ | ck'
            · rw [hc] at h3; simp [configKeyTruthy] at h3
            · have hk' : ck'.isEmpty = false := by
                rw [hc] at h3
                simpa [configKeyTruthy] using h3
              refine ⟨[AuthEvent.promptUser,
                if w'.saveOk then AuthEvent.saveConfigOk else AuthEvent.saveConfigFail], ?_⟩
              rw [getKey_config w' (by simpa using h1) (by simpa using h2) ck' hc hk']
              rfl
        · rw [getKey_prompt_reached w' (by simpa using h1) (by simpa using h2)
            (by simpa using h3)]
          by_cases hp : (jsTrim w'.promptAnswer).isEmpty
          · refine ⟨[if w'.saveOk then AuthEvent.saveConfigOk else AuthEvent.saveConfigFail], ?_⟩
            rw [promptPath_empty w' hp]
            rfl
          · refine ⟨[], ?_⟩
            rw [promptPath_nonempty w' (by simpa using hp)]
            simp

/-- Claim C2 (amended), witness: a world with a non-empty environment key. -/
theorem auth_env_priority_witness :
    (⟨some ['k'], true, some (some ['c']), ['p'], true⟩ : AuthWorld).envKey = some ['k']
    ∧ getAnthropicApiKey ⟨some ['k'], true, some (some ['c']), ['p'], true⟩
        = (Except.ok ⟨AuthMethod.env, some ['k']⟩, []) :=
  ⟨rfl, (auth_env_priority ⟨some ['k'], true, some (some ['c']), ['p'], true⟩
    ['k'] rfl (by decide)).1⟩

/-- Claim C8: every successfully resolved `AuthResult` has a `none` key exactly
when the method is the already-authenticated AI-CLI session, and a `some` key
for the environment, saved-config and interactive-prompt methods. -/
theorem auth_key_none_iff_cli (w : AuthWorld) (r : AuthResult)
    (h : (getAnthropicApiKey w).1 = Except.ok r) :
    (r.key = none ↔ r.method = AuthMethod.claudeCli)
    ∧ (r.method ≠ AuthMethod.claudeCli → ∃ k, r.key = some k) := by
  by_cases h1 : jsTruthy w.envKey
  · rcases he : w.envKey with _ | k
    · rw [he] at h1; simp [jsTruthy] at h1
    · rw [getKey_env w h1, he] at h
      injection h with h
      subst h
      exact ⟨by simp, fun _ => ⟨k, rfl⟩⟩
  · by_cases h2 : w.claudeCliOk
    · rw [getKey_cli w (by simpa using h1) h2] at h
      injection h with h
      subst h
      exact ⟨by simp, fun hm => absurd rfl hm⟩
    · by_cases h3 : configKeyTruthy w.configKey
      · rcases hc : w.configKey with _ | ck
        · rw [hc] at h3; simp [configKeyTruthy] at h3
        · rcases ck with _ | ck'
          · rw [hc] at h3; simp [configKeyTruthy] at h3
          · have hk' : ck'.isEmpty = false := by
              rw [hc] at h3
              simpa [configKeyTruthy] using h3
            rw [getKey_config w (by simpa using h1) (by simpa using h2) ck' hc hk'] at h
            injection h with h
            subst h
            exact ⟨by simp, fun _ => ⟨ck', rfl⟩⟩
      · rw [getKey_prompt_reached w (by simpa using h1) (by simpa using h2)
          (by simpa using h3)] at h
        by_cases hp : (jsTrim w.promptAnswer).isEmpty
        · rw [promptPath_empty w hp] at h
          cases h
        · rw [promptPath_nonempty w (by simpa using hp)] at h
          injection h with h
          subst h
          exact ⟨by simp, fun _ => ⟨jsTrim w.promptAnswer, rfl⟩⟩

/-- Claim C8, witness: the invariant at a world resolving through the
saved-config source. -/
theorem auth_key_none_iff_cli_witness :
    (getAnthropicApiKey ⟨none, false, some (some ['c']), [], true⟩).1
      = Except.ok ⟨AuthMethod.config, some ['c']⟩
    ∧ ((⟨AuthMethod.config, some ['c']⟩ : AuthResult).key = none
        ↔ (⟨AuthMethod.config, some ['c']⟩ : AuthResult).method = AuthMethod.claudeCli) :=
  ⟨rfl, (auth_key_none_iff_cli ⟨none, false, some (some ['c']), [], true⟩
    ⟨AuthMethod.config, some ['c']⟩ rfl).1⟩

/-- Claim C9: on the interactive-prompt path (environment key falsy, AI-CLI
probe failing, config not yielding a truthy key), an empty trimmed line fails
with the key-required error, a non-empty trimmed line resolves to method
`prompt` with that key, and the resolved result never depends on whether
persisting the key succeeds. -/
theorem auth_prompt_path (w : AuthWorld) (henv : jsTruthy w.envKey = false)
    (hcli : w.claudeCliOk = false) (hcfg : configKeyTruthy w.configKey = false) :
    ((jsTrim w.promptAnswer).isEmpty = true →
      (getAnthropicApiKey w).1 = Except.error keyRequiredMessage)
    ∧ ((jsTrim w.promptAnswer).isEmpty = false →
      (getAnthropicApiKey w).1 = Except.ok ⟨AuthMethod.prompt, some (jsTrim w.promptAnswer)⟩)
    ∧ ∀ (e : Option Str) (c : Bool) (cfg : Option (Option Str)) (p : Str),
        (getAnthropicApiKey ⟨e, c, cfg, p, false⟩).1
          = (getAnthropicApiKey ⟨e, c, cfg, p, true⟩).1 := by
  have hpp : getAnthropicApiKey w = promptPath w :=
    getKey_prompt_reached w henv hcli hcfg
  refine ⟨?_, ?_, ?_⟩
  · intro hemp
    rw [hpp, promptPath_empty w hemp]
  · intro hemp
    rw [hpp, promptPath_nonempty w hemp]
  · intro e c cfg p
    by_cases h1 : jsTruthy e
    · rw [getKey_env ⟨e, c, cfg, p, false⟩ h1, getKey_env ⟨e, c, cfg, p, true⟩ h1]
    · by_cases h2 : c = true
      · rw [getKey_cli ⟨e, c, cfg, p, false⟩ (by simpa using h1) h2,
          getKey_cli ⟨e, c, cfg, p, true⟩ (by simpa using h1) h2]
      · by_cases h3 : configKeyTruthy cfg
        · rcases hc : cfg with _ | ck
          · rw [hc] at h3; simp [configKeyTruthy] at h3
          · rcases ck with _ | ck'
            · rw [hc] at h3; simp [configKeyTruthy] at h3
            · have hk' : ck'.isEmpty = false := by
                rw [hc] at h3
                simpa [configKeyTruthy] using h3
              subst hc
              rw [getKey_config ⟨e, c, some (some ck'), p, false⟩ (by simpa using h1)
                  (by simpa using h2) ck' rfl hk',
                getKey_config ⟨e, c, some (some ck'), p, true⟩ (by simpa using h1)
                  (by simpa using h2) ck' rfl hk']
        · rw [getKey_prompt_reached ⟨e, c, cfg, p, false⟩ (by simpa using h1)
              (by simpa using h2) (by simpa using h3),
            getKey_prompt_reached ⟨e, c, cfg, p, true⟩ (by simpa using h1)
              (by simpa using h2) (by simpa using h3)]
          by_cases hp : (jsTrim p).isEmpty
          · rw [promptPath_empty ⟨e, c, cfg, p, false⟩ hp,
              promptPath_empty ⟨e, c, cfg, p, true⟩ hp]
          · rw [promptPath_nonempty ⟨e, c, cfg, p, false⟩ (by simpa using hp),
              promptPath_nonempty ⟨e, c, cfg, p, true⟩ (by simpa using hp)]

/-- Claim C9, witness: with all earlier sources exhausted and persistence
failing, a whitespace-padded key still resolves to method `prompt` with the
trimmed key, and an all-whitespace answer fails with the key-required error. -/
theorem auth_prompt_path_witness :
    jsTruthy (⟨none, false, some none, "  sk-ant-test  ".data, false⟩ : AuthWorld).envKey = false
    ∧ (⟨none, false, some none, "  sk-ant-test  ".data, false⟩ : AuthWorld).claudeCliOk = false
    ∧ configKeyTruthy (⟨none, false, some none, "  sk-ant-test  ".data, false⟩ : AuthWorld).configKey = false
    ∧ (getAnthropicApiKey ⟨none, false, some none, "  sk-ant-test  ".data, false⟩).1
        = Except.ok ⟨AuthMethod.prompt, some "sk-ant-test".data⟩
    ∧ (getAnthropicApiKey ⟨none, false, some none, "   ".data, false⟩).1
        = Except.error keyRequiredMessage := by
  refine ⟨rfl, rfl, rfl, ?_, ?_⟩
  · have h := (auth_prompt_path ⟨none, false, some none, "  sk-ant-test  ".data, false⟩
      rfl rfl rfl).2.1 (by decide)
    have ht : jsTrim "  sk-ant-test  ".data = "sk-ant-test".data := by decide
    rw [h, ht]
  · exact (auth_prompt_path ⟨none, false, some none, "   ".data, false⟩
      rfl rfl rfl).1 (by decide)

/-- Claim C4, counterexample: under the AI-CLI-session authentication method,
a non-timeout failure with nonzero exit code is not reclassified as the
'required tool not found' error — it propagates with its original message,
contradicting the claim that the classification applies regardless of the
resolved authentication method. -/
theorem claude_cli_exit_not_reclassified_cex :
    executeClaudeCommand ⟨AuthMethod.claudeCli, none⟩
        (InvokeOutcome.failure ⟨false, some 1, "spawn failed".data⟩)
      = Except.error "spawn failed".data
    ∧ "spawn failed".data ≠ cliNotFoundMessage :=
  ⟨rfl, by decide⟩

/-- Claim C4 (amended): a timed-out AI-client invocation always surfaces the
timeout message, which names the configured 90,000 ms timeout as '90 seconds';
under every authentication method other than the AI-CLI session, a non-timeout
failure with truthy exit code surfaces the 'Claude CLI not found' error and
any other failure propagates unchanged; under the AI-CLI session method every
non-timeout failure propagates unchanged. -/
theorem claude_failure_classification (auth : AuthResult) (e : ExecaError) :
    (e.timedOut = true →
      executeClaudeCommand auth (InvokeOutcome.failure e) = Except.error timeoutMessage)
    ∧ (e.timedOut = false → auth.method ≠ AuthMethod.claudeCli →
        exitTruthy e.exitCode = true →
        executeClaudeCommand auth (InvokeOutcome.failure e) = Except.error cliNotFoundMessage)
    ∧ (e.timedOut = false → auth.method ≠ AuthMethod.claudeCli →
        exitTruthy e.exitCode = false →
        executeClaudeCommand auth (InvokeOutcome.failure e) = Except.error e.message)
    ∧ (e.timedOut = false → auth.method = AuthMethod.claudeCli →
        executeClaudeCommand auth (InvokeOutcome.failure e) = Except.error e.message)
    ∧ ∃ pre post, timeoutMessage
        = pre ++ ((Nat.repr (claudeCliTimeoutMs / 1000)).data ++ " seconds".data) ++ post := by
  refine ⟨?_, ?_, ?_, ?_, ?_⟩
  · intro ht
    cases hm : auth.method <;> simp [executeClaudeCommand, hm, ht]
  · intro ht hne hexit
    cases hm : auth.method
    · simp [executeClaudeCommand, hm, ht, hexit]
    · exact absurd hm hne
    · simp [executeClaudeCommand, hm, ht, hexit]
    · simp [executeClaudeCommand, hm, ht, hexit]
  · intro ht hne hexit
    cases hm : auth.method
    · simp [executeClaudeCommand, hm, ht, hexit]
    · exact absurd hm hne
    · simp [executeClaudeCommand, hm, ht, hexit]
    · simp [executeClaudeCommand, hm, ht, hexit]
  · intro ht hm
    simp [executeClaudeCommand, hm, ht]
  · refine ⟨"Claude CLI timed out after ".data,
      ". The diff may be too large or Claude API is slow.".data, ?_⟩
    decide

/-- Claim C4 (amended), witness: a non-timeout exit-code failure under the
environment method is reclassified to the not-found error, and a timeout under
the AI-CLI session method surfaces the timeout message. -/
theorem claude_failure_classification_witness :
    (⟨false, some 127, "boom".data⟩ : ExecaError).timedOut = false
    ∧ (⟨AuthMethod.env, some ['k']⟩ : AuthResult).method ≠ AuthMethod.claudeCli
    ∧ exitTruthy (⟨false, some 127, "boom".data⟩ : ExecaError).exitCode = true
    ∧ executeClaudeCommand ⟨AuthMethod.env, some ['k']⟩
        (InvokeOutcome.failure ⟨false, some 127, "boom".data⟩)
      = Except.error cliNotFoundMessage
    ∧ executeClaudeCommand ⟨AuthMethod.claudeCli, none⟩
        (InvokeOutcome.failure ⟨true, none, "late".data⟩)
      = Except.error timeoutMessage :=
  ⟨rfl, by decide, rfl,
    (claude_failure_classification ⟨AuthMethod.env, some ['k']⟩
      ⟨false, some 127, "boom".data⟩).2.1 rfl (by decide) rfl,
    (claude_failure_classification ⟨AuthMethod.claudeCli, none⟩
      ⟨true, none, "late".data⟩).1 rfl⟩

/-- Claim C10: splitting AI-generated PR content takes the first line as title
and the lines from the third onward (joined with newlines) as description — the
second line is discarded whatever it contains, and any content with fewer than
three lines yields an empty description. -/
theorem pr_content_split (l1 l2 : Str) (rest : List Str)
    (h1 : '\n' ∉ l1) (h2 : '\n' ∉ l2) (hr : ∀ l ∈ rest, '\n' ∉ l) :
    splitPRContent (joinLines (l1 :: l2 :: rest)) = (l1, joinLines rest)
    ∧ ∀ s : Str, (splitLines s).length < 3 → (splitPRContent s).2 = [] := by
  constructor
  · have hall : ∀ l ∈ l1 :: l2 :: rest, '\n' ∉ l := by
      intro l hl
      rcases List.mem_cons.mp hl with rfl | hl
      · exact h1
      rcases List.mem_cons.mp hl with rfl | hl
      · exact h2
      · exact hr l hl
    have hs : splitLines (joinLines (l1 :: l2 :: rest)) = l1 :: l2 :: rest :=
      splitLines_joinLines _ (by simp) hall
    simp [splitPRContent, hs]
  · intro s hlen
    have hd : (splitLines s).drop 2 = [] := List.drop_eq_nil_of_le (by omega)
    simp [splitPRContent, hd, joinLines]

/-- Claim C10, witness: a three-line AI response splits into its first line and
third line, and the middle line vanishes. -/
theorem pr_content_split_witness :
    ('\n' ∉ "feat: add widget".data)
    ∧ ('\n' ∉ "this middle line is discarded".data)
    ∧ (∀ l ∈ [("the body".data : Str)], ('\n') ∉ l)
    ∧ (splitPRContent (joinLines
          ["feat: add widget".data, "this middle line is discarded".data, "the body".data])
        = ("feat: add widget".data, joinLines ["the body".data])
      ∧ ∀ s : Str, (splitLines s).length < 3 → (splitPRContent s).2 = []) :=
  ⟨by decide, by decide, by decide,
    pr_content_split _ _ _ (by decide) (by decide) (by decide)⟩

/-- A scanner for adjacent `'t','l'` characters: `noTL l` is `true` when the
two never occur consecutively in `l`, which rules out any occurrence of the
substring `--title`. -/
def noTL : List Char → Bool
  | [] => true
  | [_] => true
  | a :: b :: rest => !(a == 't' && b == 'l') && noTL (b :: rest)

theorem noTL_cons (c : Char) (l : List Char) (h : noTL (c :: l) = true) :
    noTL l = true := by
  cases l with
  | nil => rfl
  | cons b r =>
    simp only [noTL, Bool.and_eq_true] at h
    exact h.2

theorem noTL_no_tl : ∀ (s l t : List Char), noTL l = true →
    l = s ++ 't' :: 'l' :: t → False := by
  intro s
  induction s with
  | nil =>
    intro l t h hEq
    subst hEq
    simp [noTL] at h
  | cons c s' ih =>
    intro l t h hEq
    subst hEq
    exact ih _ t (noTL_cons _ _ h) rfl

theorem noTL_of_no_l (l : List Char) (h : ('l') ∉ l) : noTL l = true := by
  induction l with
  | nil => rfl
  | cons c rest ih =>
    cases rest with
    | nil => rfl
    | cons b r =>
      have hb : b ≠ 'l' := by
        intro hbl
        exact h (by simp [hbl])
      have hrest : ('l') ∉ b :: r := fun hm => h (List.mem_cons_of_mem _ hm)
      simp only [noTL, Bool.and_eq_true, Bool.not_eq_true']
      constructor
      · have hbf : (b == 'l') = false := by
          simpa using hb
        simp [hbf]
      · exact ih hrest

theorem noTL_append (a b : List Char) (ha : noTL a = true) (hb : noTL b = true)
    (hbd : ∀ x, b.head? = some x → x ≠ 'l') : noTL (a ++ b) = true := by
  induction a with
  | nil => simpa using hb
  | cons c a' ih =>
    cases a' with
    | nil =>
      cases b with
      | nil => rfl
      | cons y r =>
        simp only [List.singleton_append, noTL, Bool.and_eq_true, Bool.not_eq_true']
        constructor
        · have hy : y ≠ 'l' := hbd y rfl
          have hyf : (y == 'l') = false := by simpa using hy
          simp [hyf]
        · exact hb
    | cons d a'' =>
      simp only [List.cons_append, noTL, Bool.and_eq_true, Bool.not_eq_true']
      simp only [noTL, Bool.and_eq_true, Bool.not_eq_true'] at ha
      constructor
      · exact ha.1
      · have := ih ha.2
        simpa using this

theorem digits_no_l (ds : Str) (hds : ∀ c ∈ ds, c.isDigit = true) : ('l') ∉ ds := by
  intro hm
  have := hds 'l' hm
  exact absurd this (by decide)

theorem prEditCmd_noTL (tmpdir ds : Str) (hds : ∀ c ∈ ds, c.isDigit = true)
    (htd : ('l') ∉ tmpdir) :
    noTL (prEditCmd (tmpEditFile tmpdir ds)) = true := by
  have h1 : noTL (ds ++ (".md".data ++ "\"".data)) = true := by
    refine noTL_append ds _ (noTL_of_no_l ds (digits_no_l ds hds)) (by decide) ?_
    intro x hx
    injection hx with hx
    subst hx
    decide
  have h2 : noTL ("/pr-edit-".data ++ (ds ++ (".md".data ++ "\"".data))) = true := by
    refine noTL_append _ _ (by decide) h1 ?_
    intro x hx
    cases ds with
    | nil =>
      simp only [List.nil_append] at hx
      injection hx with hx
      subst hx
      decide
    | cons c r =>
      simp only [List.cons_append, List.head?_cons] at hx
      injection hx with hx
      subst hx
      intro hxl
      have hcm := hds c (List.mem_cons_self c r)
      rw [hxl] at hcm
      exact absurd hcm (by decide)
  have h3 : noTL (tmpdir ++ ("/pr-edit-".data ++ (ds ++ (".md".data ++ "\"".data)))) = true := by
    refine noTL_append _ _ (noTL_of_no_l tmpdir htd) h2 ?_
    intro x hx
    injection hx with hx
    subst hx
    decide
  have h4 : noTL ("gh pr edit --body-file \"".data
      ++ (tmpdir ++ ("/pr-edit-".data ++ (ds ++ (".md".data ++ "\"".data))))) = true := by
    refine noTL_append _ _ (by decide) h3 ?_
    intro x hx
    cases tmpdir with
    | nil =>
      simp only [List.nil_append] at hx
      injection hx with hx
      subst hx
      decide
    | cons c r =>
      simp only [List.cons_append, List.head?_cons] at hx
      injection hx with hx
      subst hx
      intro hxl
      exact htd (hxl ▸ List.mem_cons_self c r)
  have hshape : prEditCmd (tmpEditFile tmpdir ds)
      = "gh pr edit --body-file \"".data
        ++ (tmpdir ++ ("/pr-edit-".data ++ (ds ++ (".md".data ++ "\"".data)))) := by
    simp [prEditCmd, tmpEditFile, List.append_assoc]
  rw [hshape]
  exact h4

theorem prEditCmd_no_title (tmpdir ds : Str) (hds : ∀ c ∈ ds, c.isDigit = true)
    (htd : ('l') ∉ tmpdir) :
    ¬ ∃ a b, prEditCmd (tmpEditFile tmpdir ds) = a ++ "--title".data ++ b := by
  rintro ⟨a, b, hEq⟩
  have hdec : ("--title".data : List Char) = ['-', '-', 't', 'i'] ++ 't' :: 'l' :: ['e'] := rfl
  rw [hdec] at hEq
  have hEq2 : prEditCmd (tmpEditFile tmpdir ds)
      = (a ++ ['-', '-', 't', 'i']) ++ 't' :: 'l' :: ('e' :: b) := by
    rw [hEq]
    simp [List.append_assoc]
  exact noTL_no_tl (a ++ ['-', '-', 't', 'i']) _ ('e' :: b)
    (prEditCmd_noTL tmpdir ds hds htd) hEq2

/-- Claim C5: when an existing PR is found, the orchestrator writes the
regenerated description (lines three onward of the AI response) to the
timestamp-named temporary file, runs exactly one hosting-CLI command — a
`gh pr edit` carrying only a `--body-file` flag and never a `--title` flag, so
the title is untouched — and then deletes the temporary file. -/
theorem ghp_update_existing_pr (prContent tmpdir ds : Str)
    (hds : ∀ c ∈ ds, c.isDigit = true) (htd : ('l') ∉ tmpdir) :
    updateExistingPRSteps prContent (tmpEditFile tmpdir ds)
      = [FsEffect.writeFile (tmpEditFile tmpdir ds) (splitPRContent prContent).2,
          FsEffect.runCmd (prEditCmd (tmpEditFile tmpdir ds)),
          FsEffect.deleteFile (tmpEditFile tmpdir ds)]
    ∧ ¬ ∃ a b, prEditCmd (tmpEditFile tmpdir ds) = a ++ "--title".data ++ b :=
  ⟨rfl, prEditCmd_no_title tmpdir ds hds htd⟩

/-- Claim C5, witness: the update trace at a concrete AI response, temp
directory and timestamp. -/
theorem ghp_update_existing_pr_witness :
    (∀ c ∈ ("1712345".data : Str), c.isDigit = true)
    ∧ (('l') ∉ ("/tmp".data : Str))
    ∧ (updateExistingPRSteps "t\nskip\nbody".data (tmpEditFile "/tmp".data "1712345".data)
        = [FsEffect.writeFile (tmpEditFile "/tmp".data "1712345".data)
              (splitPRContent "t\nskip\nbody".data).2,
            FsEffect.runCmd (prEditCmd (tmpEditFile "/tmp".data "1712345".data)),
            FsEffect.deleteFile (tmpEditFile "/tmp".data "1712345".data)]
      ∧ ¬ ∃ a b, prEditCmd (tmpEditFile "/tmp".data "1712345".data)
          = a ++ "--title".data ++ b) :=
  ⟨by decide, by decide,
    ghp_update_existing_pr _ _ _ (by decide) (by decide)⟩

end Ghct
